import Mathlib

/-!
Shallow embedding of the AES-HMAC page codec of the go-sqlite repository
(go1/sqlite3/codec/aes-hmac.go and the go_codec_exec dispatch in
go1/sqlite3/codec.go), together with theorems checking the specification's
claims about it.

Pages and byte buffers are `List Nat` (each element a byte value).  The
external cryptographic primitives (the HMAC over SHA-1 / SHA-256 supplied by
Go's crypto packages, and the AES-CTR / AES-OFB keystream) are abstracted as
fields of a `Prims` structure; theorems assume only their length laws, and
witnesses instantiate them with concrete functions.  Go's `cipher.Block` and
the keyed `hash.Hash` held in the codec state are represented by the key
bytes they were constructed from.  Fallible operations return an `Outcome`;
a Go runtime panic (nil-interface method call) is the `panicked` outcome.
-/

/-- Hash algorithm selected by the codec options (Go: sha1.New / sha256.New). -/
inductive HashId where
  | sha1 : HashId
  | sha256 : HashId
deriving DecidableEq, Repr

/-- Output size in bytes of the hash function (Go: c.hash().Size()). -/
def HashId.size : HashId → Nat
  | HashId.sha1 => 20
  | HashId.sha256 => 32

/-- Stream cipher chaining mode (Go: cipher.NewCTR / cipher.NewOFB). -/
inductive ModeId where
  | ctr : ModeId
  | ofb : ModeId
deriving DecidableEq, Repr

/-- Error values of the codec package (Go `*Error` values keyErr, prngErr,
codecErr, and NewError(MISUSE, msg)). -/
inductive Err where
  | keyErr : Err
  | prngErr : Err
  | codecErr : Err
  | misuseErr : String → Err
deriving DecidableEq, Repr

/-- Result of a call that can fail with an error or crash with a Go runtime
panic (a method call on a nil interface value). -/
inductive Outcome (α : Type) where
  | ok : α → Outcome α
  | err : Err → Outcome α
  | panicked : Outcome α
deriving DecidableEq, Repr

/-- Abstract cryptographic primitives supplied by Go's standard library.
hmacF h k m is the full HMAC-H digest of message m under key k; stream md k
iv n is the first n keystream bytes of AES(k) in mode md seeded with iv. -/
structure Prims where
  hmacF : HashId → List Nat → List Nat → List Nat
  stream : ModeId → List Nat → List Nat → Nat → List Nat

/-- Go copy semantics: overwrite p starting at offset off with the bytes of v,
clipped to p's length (the result always has the same length as p). -/
def copyInto (p : List Nat) (off : Nat) (v : List Nat) : List Nat :=
  p.take off ++ v.take (p.length - off) ++
    p.drop (off + min v.length (p.length - off))

/-- Pointwise xor of two byte lists, truncated to the shorter one
(Go: cipher.Stream.XORKeyStream processes len(src) bytes). -/
def xorBytes : List Nat → List Nat → List Nat
  | [], _ => []
  | _, [] => []
  | a :: as, b :: bs => (a ^^^ b) :: xorBytes as bs

/-- Big-endian 32-bit encoding of the page number
(Go: byte(n>>24), byte(n>>16), byte(n>>8), byte(n)). -/
def be32 (n : Nat) : List Nat :=
  [n / 2 ^ 24 % 256, n / 2 ^ 16 % 256, n / 2 ^ 8 % 256, n % 256]

/-- Models aes.NewCipher's success condition: the key must be 16, 24, or 32
bytes long. -/
def aesKeyOk (k : List Nat) : Bool :=
  (k.length == 16) || (k.length == 24) || (k.length == 32)

/-- Modelled from the spec: one expand round chain of RFC 5869 HKDF
(the codec package's hkdf.go is not under src).  Produces cnt blocks
T_i = HMAC(H, prk, T_(i-1) ++ info ++ byte(i)), concatenated. -/
def hkdfBlocks (pr : Prims) (h : HashId) (prk info : List Nat) :
    List Nat → Nat → Nat → List Nat
  | _, _, 0 => []
  | prev, i, Nat.succ cnt =>
    let t := pr.hmacF h prk (prev ++ info ++ [i % 256])
    t ++ hkdfBlocks pr h prk info t (i + 1) cnt

/-- Modelled from the spec: RFC 5869 extract-then-expand HKDF over hash h
(the codec package's hkdf.go is not under src).  PRK = HMAC(H, salt, ikm)
with an all-zero block for an empty salt; the expansion is truncated to L
bytes. -/
def hkdf (pr : Prims) (h : HashId) (ikm salt : List Nat) (L : Nat)
    (info : List Nat) : List Nat :=
  let prk := pr.hmacF h
    (if salt = [] then List.replicate (HashId.size h) 0 else salt) ikm
  (hkdfBlocks pr h prk info [] 1 ((L + HashId.size h - 1) / HashId.size h)).take L

/-- The 9-byte HKDF info constant ([]byte("go-sqlite\x00")[:9]). -/
def goSqliteInfo : List Nat := [103, 111, 45, 115, 113, 108, 105, 116, 101]

/-- Codec state (Go struct aesHmac).  block and hmacKey model the lazily
initialized cipher.Block and keyed hash.Hash by the keys they hold; none
means the nil interface value. -/
structure aesHmac where
  key : List Nat
  p1k : List Nat
  p1i : List Nat
  buf : List Nat
  kLen : Nat
  tLen : Nat
  hash : HashId
  mode : ModeId
  block : Option (List Nat)
  hmacKey : Option (List Nat)
deriving DecidableEq, Repr

/-- Page subslice that gets authenticated (Go: p[:len(p)-c.tLen]). -/
def aesHmac.pAuth (c : aesHmac) (p : List Nat) : List Nat :=
  p.take (p.length - c.tLen)

/-- Page subslice that gets encrypted (Go: p[:len(p)-c.tLen-aes.BlockSize]). -/
def aesHmac.pText (c : aesHmac) (p : List Nat) : List Nat :=
  p.take (p.length - c.tLen - 16)

/-- Master-key slot of page 1 (Go: p[off:off+c.kLen] with
off = len(p)-c.tLen-aes.BlockSize-c.kLen). -/
def aesHmac.pKey (c : aesHmac) (p : List Nat) : List Nat :=
  (p.drop (p.length - c.tLen - 16 - c.kLen)).take c.kLen

/-- Page IV slot (Go: p[off:off+aes.BlockSize] with
off = len(p)-c.tLen-aes.BlockSize). -/
def aesHmac.pIV (c : aesHmac) (p : List Nat) : List Nat :=
  (p.drop (p.length - c.tLen - 16)).take 16

/-- Page authentication tag slot (Go: p[len(p)-c.tLen:]). -/
def aesHmac.pTag (c : aesHmac) (p : List Nat) : List Nat :=
  p.drop (p.length - c.tLen)

/-- Reserve (Go: c.kLen + aes.BlockSize + c.tLen). -/
def aesHmac.Reserve (c : aesHmac) : Nat :=
  c.kLen + 16 + c.tLen

/-- Resize (Go aesHmac.Resize).  none models the panic on a reserve
mismatch; otherwise the new state and the capacity of the allocated buffer
(Go: make([]byte, pageSize, pageSize-c.tLen+tMax)). -/
def aesHmac.Resize (c : aesHmac) (pageSize reserve : Nat) :
    Option (aesHmac × Nat) :=
  if reserve ≠ aesHmac.Reserve c then none
  else some ({ c with buf := List.replicate pageSize 0 },
    pageSize - c.tLen + HashId.size c.hash)

/-- Result of Go aesHmac.cipher: a stream cipher (cipher key and IV for the
configured mode) plus the HMAC key; nilPair models the (nil, nil) return,
nilPanic the nil-interface method call that happens for n > 1 when the block
cipher or HMAC hash is not initialized. -/
inductive CipherOut where
  | keys : List Nat → List Nat → List Nat → CipherOut
  | nilPair : CipherOut
  | nilPanic : CipherOut
deriving DecidableEq, Repr

/-- Go aesHmac.cipher: stream cipher and HMAC for page n.  For n > 1 the
pre-initialized block cipher and HMAC are used (a nil one panics at
c.hmac.Reset() or inside c.mode).  For n <= 1, ephemeral keys and IV are
derived from the page-1 key via HKDF with the page IV as salt. -/
def aesHmac.cipher (pr : Prims) (c : aesHmac) (n : Nat) (iv : List Nat) :
    CipherOut :=
  if 1 < n then
    match c.block, c.hmacKey with
    | some bk, some hk => CipherOut.keys bk iv hk
    | _, _ => CipherOut.nilPanic
  else
    let dkLen := 2 * c.kLen
    let dk0 := hkdf pr c.hash c.p1k iv (dkLen + 16) c.p1i
    let dk := dk0.take dkLen
    if aesKeyOk (dk.take c.kLen) then
      CipherOut.keys (dk.take c.kLen) (dk0.drop dkLen) (dk.drop c.kLen)
    else CipherOut.nilPair

/-- Go aesHmac.mac's digest: HMAC over page_number_be32 followed by the
authenticated region of p, under HMAC key hk. -/
def aesHmac.macDigest (pr : Prims) (c : aesHmac) (hk : List Nat)
    (p : List Nat) (n : Nat) : List Nat :=
  pr.hmacF c.hash hk (be32 n ++ aesHmac.pAuth c p)

/-- Go aesHmac.init: initialize the block cipher and HMAC from the page-1
master key.  Returns (success, page after, state after).  The newKey branch
fills the master-key slot of the page from the CSPRNG (mkR; none models a
CSPRNG failure).  aes.NewCipher failure is aesKeyOk on the derived key. -/
def aesHmac.init (pr : Prims) (c : aesHmac) (p : List Nat) (n : Nat)
    (newKey : Bool) (mkR : Option (List Nat)) : Bool × List Nat × aesHmac :=
  if n ≠ 1 then (false, p, c)
  else
    match (if newKey then mkR else some []) with
    | none => (false, p, c)
    | some mkv =>
      let p1 := if newKey then
          copyInto p (p.length - c.tLen - 16 - c.kLen) (mkv.take c.kLen)
        else p
      let mk := aesHmac.pKey c p1
      let hdr := p1.take 16
      let dk := hkdf pr c.hash mk [] (2 * c.kLen) hdr
      if aesKeyOk (dk.take c.kLen) then
        (true, p1, { c with block := some (dk.take c.kLen),
                            hmacKey := some (dk.drop c.kLen) })
      else (false, p1, c)

/-- Go aesHmac.Encode.  ivR is the CSPRNG output for the fresh page IV and
mkR the CSPRNG output for a fresh master key (none models a CSPRNG
failure).  Returns (result, input page after the call, state after). -/
def aesHmac.Encode (pr : Prims) (c : aesHmac) (p : List Nat) (n : Nat)
    (ivR mkR : Option (List Nat)) : Outcome (List Nat) × List Nat × aesHmac :=
  match ivR with
  | none => (Outcome.err Err.prngErr, p, c)
  | some ivNew =>
    let c0 := { c with
      buf := copyInto c.buf (c.buf.length - c.tLen - 16) (ivNew.take 16) }
    let iv := aesHmac.pIV c0 c0.buf
    match (if c0.block = none then aesHmac.init pr c0 p n true mkR
           else (true, p, c0)) with
    | (false, p1, c1) => (Outcome.err Err.codecErr, p1, c1)
    | (true, p1, c1) =>
      match aesHmac.cipher pr c1 n iv with
      | CipherOut.nilPanic => (Outcome.panicked, p1, c1)
      | CipherOut.nilPair => (Outcome.panicked, p1, c1)
      | CipherOut.keys ck siv hk =>
        let ks := pr.stream c1.mode ck siv (aesHmac.pText c1 p1).length
        let buf1 := copyInto c1.buf 0 (xorBytes (aesHmac.pText c1 p1) ks)
        let buf2 := if n = 1 then copyInto buf1 16 ((p1.drop 16).take 8)
                    else buf1
        let dg := aesHmac.macDigest pr c1 hk buf2 n
        let buf3 := copyInto buf2 (buf2.length - c1.tLen) (dg.take c1.tLen)
        (Outcome.ok buf3, p1, { c1 with buf := buf3 })

/-- Go aesHmac.Decode (in place).  Returns (result, page after the call,
state after). -/
def aesHmac.Decode (pr : Prims) (c : aesHmac) (p : List Nat) (n : Nat) :
    Outcome Unit × List Nat × aesHmac :=
  match aesHmac.cipher pr c n (aesHmac.pIV c p) with
  | CipherOut.nilPanic => (Outcome.panicked, p, c)
  | CipherOut.nilPair => (Outcome.panicked, p, c)
  | CipherOut.keys ck siv hk =>
    let dg := aesHmac.macDigest pr c hk p n
    let bufA := copyInto c.buf (c.buf.length - c.tLen) (dg.take c.tLen)
    if aesHmac.pTag c bufA = aesHmac.pTag c p then
      let bufB := if n = 1 then copyInto bufA 0 ((p.drop 16).take 8) else bufA
      let ks := pr.stream c.mode ck siv (aesHmac.pText c p).length
      let p1 := copyInto p 0 (xorBytes (aesHmac.pText c p) ks)
      let p2 := if n = 1 then copyInto p1 16 (bufB.take 8) else p1
      let cB := { c with buf := bufB }
      if cB.block = none then
        match aesHmac.init pr cB p2 n false none with
        | (true, p3, cC) => (Outcome.ok (), p3, cC)
        | (false, p3, cC) => (Outcome.err Err.codecErr, p3, cC)
      else (Outcome.ok (), p2, cB)
    else (Outcome.err Err.codecErr, p, { c with buf := bufA })

/-- Go aesHmac.config: apply one codec option token. -/
def aesHmac.configOne (c : aesHmac) (k : String) : Except Err aesHmac :=
  if k = "192" then Except.ok { c with kLen := 24 }
  else if k = "256" then Except.ok { c with kLen := 32 }
  else if k = "ofb" then Except.ok { c with mode := ModeId.ofb }
  else if k = "sha256" then Except.ok { c with hash := HashId.sha256 }
  else Except.error (Err.misuseErr ("invalid codec option: " ++ k))

/-- Go aesHmac.config: apply the option tokens of the key (the Go map
iteration is modelled as a list traversal). -/
def aesHmac.config (c : aesHmac) : List String → Except Err aesHmac
  | [] => Except.ok c
  | k :: ks =>
    match aesHmac.configOne c k with
    | Except.ok c1 => aesHmac.config c1 ks
    | Except.error e => Except.error e

/-- Go newAesHmac over the result of parseKey: opts is the parsed option
token set and mk the master-secret slice (none when parseKey failed). -/
def newAesHmac (key : List Nat) (opts : List String)
    (mk : Option (List Nat)) : Except Err aesHmac :=
  match mk with
  | none => Except.error Err.keyErr
  | some mkv =>
    aesHmac.config
      { key := key, p1k := mkv, p1i := goSqliteInfo, buf := [],
        kLen := 16, tLen := 16, hash := HashId.sha1, mode := ModeId.ctr,
        block := none, hmacKey := none } opts

/-- Which codec operation go_codec_exec performs. -/
inductive ExecAction where
  | encode : ExecAction
  | decode : ExecAction
deriving DecidableEq, Repr

/-- Dispatch of the first go_codec_exec variant (codec.go lines 84-92):
op&4 == 0 selects Decode, otherwise Encode. -/
def execActionV1 (op : Nat) : ExecAction :=
  if op &&& 4 = 0 then ExecAction.decode else ExecAction.encode

/-- Dispatch of the second go_codec_exec variant (codec.go lines 212-220):
op&4 == 1 selects Encode, otherwise Decode. -/
def execActionV2 (op : Nat) : ExecAction :=
  if op &&& 4 = 1 then ExecAction.encode else ExecAction.decode

/-- Pointer returned by go_codec_exec to the host. -/
inductive ExecRet where
  | origPage : ExecRet
  | codecBuf : ExecRet
  | nullPtr : ExecRet
deriving DecidableEq, Repr

/-- Second go_codec_exec variant (codec.go lines 212-220), abstracted over
the outcomes of the wrapped codec calls: encodeOk tells whether Encode
returned a buffer (false: nil) and decodeOk whether Decode succeeded. -/
def go_codec_exec_v2 (op : Nat) (encodeOk decodeOk : Bool) : ExecRet :=
  if op &&& 4 = 1 then
    if encodeOk then ExecRet.codecBuf else ExecRet.nullPtr
  else
    if decodeOk then ExecRet.origPage else ExecRet.nullPtr

/-- Derived closed form of a successful Encode on an initialized codec:
stream-encrypted text, page-1 header fix, fresh IV, truncated tag. -/
def encSpec (pr : Prims) (c : aesHmac) (p ivNew : List Nat) (n : Nat)
    (ck siv hk : List Nat) : List Nat :=
  let L := p.length
  let ks := pr.stream c.mode ck siv (L - 32)
  let ct := xorBytes (p.take (L - 32)) ks
  let ctF := if n = 1 then ct.take 16 ++ ((p.drop 16).take 8 ++ ct.drop 24)
             else ct
  ctF ++ (ivNew ++
    (pr.hmacF c.hash hk (be32 n ++ (ctF ++ ivNew))).take 16)

/-- Concrete primitives for witnesses: a keystream of zero bytes and an
HMAC returning an all-ones digest of the right width. -/
def trivPrims : Prims :=
  { hmacF := fun h _ _ => List.replicate (HashId.size h) 1,
    stream := fun _ _ _ L => List.replicate L 0 }

/-- A concrete initialized codec state over 512-byte pages. -/
def cexCodec : aesHmac :=
  { key := [], p1k := [5], p1i := goSqliteInfo, buf := List.replicate 512 0,
    kLen := 16, tLen := 16, hash := HashId.sha1, mode := ModeId.ctr,
    block := some (List.replicate 16 0),
    hmacKey := some (List.replicate 16 9) }

/-- A concrete all-zero 512-byte page. -/
def cexPage : List Nat := List.replicate 512 0

/-- A concrete nonzero IV, so that the decoded IV slot differs from the
all-zero plaintext page. -/
def cexIV : List Nat := List.replicate 16 7

/-- Page after the new-key bootstrap: the master-key slot is filled with the
CSPRNG output. -/
def bootPage (c : aesHmac) (p mkv : List Nat) : List Nat :=
  copyInto p (p.length - c.tLen - 16 - c.kLen) (mkv.take c.kLen)

/-- Key material derived by init from the page-1 master key and the 16-byte
file header. -/
def bootDk (pr : Prims) (c : aesHmac) (p mkv : List Nat) : List Nat :=
  hkdf pr c.hash (aesHmac.pKey c (bootPage c p mkv)) [] (2 * c.kLen)
    ((bootPage c p mkv).take 16)

/-- True iff the outcome is a success (Go: err == nil and no panic). -/
def Outcome.isOk {α : Type} : Outcome α → Bool
  | Outcome.ok _ => true
  | _ => false

/-- A small initialized codec over 96-byte pages, for witnesses. -/
def smallCodec : aesHmac :=
  { key := [], p1k := [5], p1i := goSqliteInfo, buf := List.replicate 96 0,
    kLen := 16, tLen := 16, hash := HashId.sha1, mode := ModeId.ctr,
    block := some (List.replicate 16 0),
    hmacKey := some (List.replicate 16 9) }

/-- A 96-byte all-zero page. -/
def smallPage : List Nat := List.replicate 96 0

/-- Post-encode state of a page-1 encode on the small codec, used to feed a
successfully decodable page-1 image to the Decode direction. -/
def c3state : aesHmac :=
  (aesHmac.Encode trivPrims smallCodec smallPage 1
    (some (List.replicate 16 7)) none).2.2

/-- The encoded page-1 image held in the codec buffer after that encode. -/
def c3page : List Nat := c3state.buf

/-- Primitives whose HMAC digest depends on the first key byte, to separate
tags computed under different keys. -/
def keyedPrims : Prims :=
  { hmacF := fun h k _ =>
      List.replicate (HashId.size h) ((k.headD 0 + 1) % 256),
    stream := fun _ _ _ L => List.replicate L 0 }

/-- The small codec with a per-database MAC key distinguishable from the
page-1 ephemeral key under keyedPrims. -/
def c4Codec : aesHmac :=
  { smallCodec with hmacKey := some (List.replicate 16 3) }

/-- An uninitialized codec state (fresh newAesHmac result after Resize). -/
def freshCodec : aesHmac :=
  { smallCodec with block := none, hmacKey := none }

/-- The codec produced by newAesHmac with the default options. -/
def defCodec : aesHmac :=
  { key := [], p1k := [5], p1i := goSqliteInfo, buf := [], kLen := 16,
    tLen := 16, hash := HashId.sha1, mode := ModeId.ctr, block := none,
    hmacKey := none }

/-! Helper lemmas about the byte-buffer operations. -/

theorem xorBytes_length (a b : List Nat) :
    (xorBytes a b).length = min a.length b.length := by
  induction a generalizing b with
  | nil => simp [xorBytes]
  | cons x xs ih =>
    cases b with
    | nil => simp [xorBytes]
    | cons y ys =>
      simp only [xorBytes, List.length_cons, ih]
      omega

theorem xorBytes_append {a₁ b₁ : List Nat} (a₂ b₂ : List Nat)
    (h : a₁.length = b₁.length) :
    xorBytes (a₁ ++ a₂) (b₁ ++ b₂) = xorBytes a₁ b₁ ++ xorBytes a₂ b₂ := by
  induction a₁ generalizing b₁ with
  | nil => cases b₁ with
    | nil => simp [xorBytes]
    | cons y ys => simp at h
  | cons x xs ih =>
    cases b₁ with
    | nil => simp at h
    | cons y ys =>
      simp only [List.length_cons, Nat.succ.injEq] at h
      simp [xorBytes, ih h]

theorem xorBytes_cancel {a b : List Nat} (h : a.length ≤ b.length) :
    xorBytes (xorBytes a b) b = a := by
  induction a generalizing b with
  | nil => cases b <;> simp [xorBytes]
  | cons x xs ih =>
    cases b with
    | nil => simp at h
    | cons y ys =>
      simp only [List.length_cons, Nat.succ_le_succ_iff] at h
      simp [xorBytes, ih h, Nat.xor_cancel_right]

theorem copyInto_length (p v : List Nat) (off : Nat) :
    (copyInto p off v).length = p.length := by
  unfold copyInto
  simp only [List.length_append, List.length_take, List.length_drop]
  omega

theorem copyInto_eq {p v : List Nat} {off : Nat}
    (h : off + v.length ≤ p.length) :
    copyInto p off v = p.take off ++ v ++ p.drop (off + v.length) := by
  unfold copyInto
  have h1 : v.take (p.length - off) = v := List.take_of_length_le (by omega)
  have h2 : min v.length (p.length - off) = v.length := by omega
  rw [h1, h2]

theorem take_append_of_length {a : List Nat} (b : List Nat) {m : Nat}
    (ha : a.length = m) : (a ++ b).take m = a :=
  List.take_left' ha

theorem drop_append_of_length {a : List Nat} (b : List Nat) {m : Nat}
    (ha : a.length = m) : (a ++ b).drop m = b :=
  List.drop_left' ha

theorem HashId.size_pos (h : HashId) : 0 < HashId.size h := by
  cases h <;> simp [HashId.size]

theorem HashId.sixteen_le_size (h : HashId) : 16 ≤ HashId.size h := by
  cases h <;> simp [HashId.size]

theorem le_ceil_mul {L s : Nat} (hs : 0 < s) : L ≤ (L + s - 1) / s * s := by
  rcases Nat.eq_zero_or_pos L with h0 | hL
  · simp [h0]
  · have h1 := Nat.div_add_mod (L + s - 1) s
    rw [Nat.mul_comm] at h1
    have h2 : (L + s - 1) % s < s := Nat.mod_lt _ hs
    revert h1 h2
    generalize (L + s - 1) / s * s = m
    generalize (L + s - 1) % s = r
    intro h1 h2
    omega

theorem hkdfBlocks_length (pr : Prims) (h : HashId) (prk info : List Nat)
    (hl : ∀ k m, (pr.hmacF h k m).length = HashId.size h) :
    ∀ (cnt : Nat) (prev : List Nat) (i : Nat),
      (hkdfBlocks pr h prk info prev i cnt).length = cnt * HashId.size h := by
  intro cnt
  induction cnt with
  | zero => intro prev i; simp [hkdfBlocks]
  | succ c ih =>
    intro prev i
    simp only [hkdfBlocks, List.length_append, hl, ih]
    ring

theorem hkdf_length (pr : Prims) (h : HashId) (ikm salt info : List Nat)
    (L : Nat) (hl : ∀ k m, (pr.hmacF h k m).length = HashId.size h) :
    (hkdf pr h ikm salt L info).length = L := by
  unfold hkdf
  rw [List.length_take, hkdfBlocks_length pr h _ info hl]
  have := le_ceil_mul (L := L) (HashId.size_pos h)
  omega

theorem copyInto_eq3 {p v : List Nat} {off : Nat}
    (h : off + v.length ≤ p.length) :
    copyInto p off v = p.take off ++ (v ++ p.drop (off + v.length)) := by
  rw [copyInto_eq h, List.append_assoc]

theorem take_two_of_three {a b : List Nat} (d : List Nat) {m : Nat}
    (h : a.length + b.length = m) : (a ++ (b ++ d)).take m = a ++ b := by
  rw [← List.append_assoc]
  exact List.take_left' (by simp [h])

theorem drop_two_of_three {a b : List Nat} (d : List Nat) {m : Nat}
    (h : a.length + b.length = m) : (a ++ (b ++ d)).drop m = d := by
  rw [← List.append_assoc]
  exact List.drop_left' (by simp [h])

theorem length_three (a b d : List Nat) :
    (a ++ (b ++ d)).length = a.length + b.length + d.length := by
  simp [Nat.add_assoc]

theorem pIV_three (c : aesHmac) (htl : c.tLen = 16) {a b d : List Nat}
    (hb : b.length = 16) (hd : d.length = 16) :
    aesHmac.pIV c (a ++ (b ++ d)) = b := by
  unfold aesHmac.pIV
  rw [htl, length_three, hb, hd]
  have h1 : a.length + 16 + 16 - 16 - 16 = a.length := by omega
  rw [h1, List.drop_left' rfl, List.take_left' hb]

theorem pAuth_three (c : aesHmac) (htl : c.tLen = 16) {a b d : List Nat}
    (hd : d.length = 16) :
    aesHmac.pAuth c (a ++ (b ++ d)) = a ++ b := by
  unfold aesHmac.pAuth
  rw [length_three, hd]
  exact take_two_of_three d (by omega)

theorem pTag_three (c : aesHmac) (htl : c.tLen = 16) {a b d : List Nat}
    (hd : d.length = 16) :
    aesHmac.pTag c (a ++ (b ++ d)) = d := by
  unfold aesHmac.pTag
  rw [htl, length_three, hd]
  exact drop_two_of_three d (by omega)

theorem pText_three (c : aesHmac) (htl : c.tLen = 16) {a b d : List Nat}
    (hb : b.length = 16) (hd : d.length = 16) :
    aesHmac.pText c (a ++ (b ++ d)) = a := by
  unfold aesHmac.pText
  rw [htl, length_three, hb, hd]
  have h1 : a.length + 16 + 16 - 16 - 16 = a.length := by omega
  rw [h1, List.take_left' rfl]

theorem cipher_buf_congr (pr : Prims) (c : aesHmac) (b iv : List Nat)
    (n : Nat) :
    aesHmac.cipher pr { c with buf := b } n iv = aesHmac.cipher pr c n iv :=
  rfl

theorem pText_buf_congr (c : aesHmac) (b p : List Nat) :
    aesHmac.pText { c with buf := b } p = aesHmac.pText c p := rfl

theorem length_take_of_le {l : List Nat} {n : Nat} (h : n ≤ l.length) :
    (l.take n).length = n := by
  rw [List.length_take]
  omega

theorem pIV_buf_congr (c : aesHmac) (b p : List Nat) :
    aesHmac.pIV { c with buf := b } p = aesHmac.pIV c p := rfl

theorem macDigest_buf_congr (pr : Prims) (c : aesHmac) (b hk p : List Nat)
    (n : Nat) :
    aesHmac.macDigest pr { c with buf := b } hk p n =
      aesHmac.macDigest pr c hk p n := rfl

theorem encode_shape (pr : Prims) (c : aesHmac) (p ivNew : List Nat) (n : Nat)
    (mkR : Option (List Nat)) (bk ck siv hk : List Nat)
    (hl1 : ∀ h k m, (pr.hmacF h k m).length = HashId.size h)
    (hl2 : ∀ md k iv L, (pr.stream md k iv L).length = L)
    (hblock : c.block = some bk)
    (hcf : aesHmac.cipher pr c n ivNew = CipherOut.keys ck siv hk)
    (htl : c.tLen = 16)
    (hbuf : c.buf.length = p.length)
    (hL : 56 ≤ p.length)
    (hiv : ivNew.length = 16) :
    aesHmac.Encode pr c p n (some ivNew) mkR =
      (Outcome.ok (encSpec pr c p ivNew n ck siv hk), p,
        { c with buf := encSpec pr c p ivNew n ck siv hk }) := by
  have hivt : List.take 16 ivNew = ivNew := List.take_of_length_le (le_of_eq hiv)
  have hA : (c.buf.take (p.length - 32)).length = p.length - 32 :=
    length_take_of_le (by omega)
  have hB : (c.buf.drop (p.length - 16)).length = 16 := by
    rw [List.length_drop]; omega
  have hbuf0 : copyInto c.buf (c.buf.length - c.tLen - 16) ivNew =
      c.buf.take (p.length - 32) ++ (ivNew ++ c.buf.drop (p.length - 16)) := by
    rw [copyInto_eq3 (by omega)]
    have e2 : c.buf.length - c.tLen - 16 + ivNew.length = p.length - 16 := by
      omega
    have e1 : c.buf.length - c.tLen - 16 = p.length - 32 := by omega
    rw [e2, e1]
  have hpt : aesHmac.pText c p = p.take (p.length - 32) := by
    unfold aesHmac.pText
    have e3 : p.length - c.tLen - 16 = p.length - 32 := by omega
    rw [e3]
  have hptlen : (aesHmac.pText c p).length = p.length - 32 := by
    rw [hpt]; exact length_take_of_le (by omega)
  unfold aesHmac.Encode
  simp only [hblock]
  rw [if_neg (fun h => Option.noConfusion h)]
  simp only [← hblock, hivt, hbuf0, cipher_buf_congr, pIV_buf_congr,
    pText_buf_congr, macDigest_buf_congr,
    pIV_three c htl hiv hB, hcf, hpt, hptlen]
  have hptlen2 : (List.take (p.length - 32) p).length = p.length - 32 :=
    length_take_of_le (by omega)
  simp only [hptlen2, htl]
  set B := List.drop (p.length - 16) c.buf with hBdef
  set ks := pr.stream c.mode ck siv (p.length - 32) with hks
  have hkslen : ks.length = p.length - 32 := hl2 ..
  set xct := xorBytes (List.take (p.length - 32) p) ks with hxct
  have hxlen : xct.length = p.length - 32 := by
    rw [hxct, xorBytes_length, hkslen, hptlen2]
    omega
  have hbuf1 : copyInto (List.take (p.length - 32) c.buf ++ (ivNew ++ B)) 0
      xct = xct ++ (ivNew ++ B) := by
    rw [copyInto_eq3 (by rw [length_three, hA, hiv, hB, hxlen]; omega)]
    rw [List.take_zero, List.nil_append, Nat.zero_add, hxlen,
      List.drop_left' hA]
  simp only [hbuf1]
  have hdglen : ∀ m : List Nat, (List.take 16 (pr.hmacF c.hash hk m)).length = 16 := by
    intro m
    exact length_take_of_le (by rw [hl1]; exact HashId.sixteen_le_size c.hash)
  by_cases hn : n = 1
  · -- page 1: header bytes are copied over the ciphertext
    simp only [if_pos hn]
    have hp16 : (List.take 8 (List.drop 16 p)).length = 8 := by
      rw [List.length_take, List.length_drop]; omega
    have hbuf2 : copyInto (xct ++ (ivNew ++ B)) 16 (List.take 8 (List.drop 16 p)) =
        (List.take 16 xct ++ (List.take 8 (List.drop 16 p) ++ List.drop 24 xct))
          ++ (ivNew ++ B) := by
      rw [copyInto_eq3 (by rw [length_three, hxlen, hiv, hB, hp16]; omega)]
      rw [hp16]
      rw [List.take_append_of_le_length (by omega)]
      rw [show (16 + 8 : Nat) = 24 from rfl]
      rw [List.drop_append_eq_append_drop]
      rw [show (24 - xct.length : Nat) = 0 by omega, List.drop_zero]
      simp only [List.append_assoc]
    simp only [hbuf2]
    set ctF := List.take 16 xct ++ (List.take 8 (List.drop 16 p) ++ List.drop 24 xct)
      with hctF
    have hctFlen : ctF.length = p.length - 32 := by
      rw [hctF]
      simp only [List.length_append, List.length_take, List.length_drop, hxlen]
      omega
    have hblen : (ctF ++ (ivNew ++ B)).length - 16 = p.length - 16 := by
      rw [length_three, hctFlen, hiv, hB]; omega
    have hdg : aesHmac.macDigest pr c hk (ctF ++ (ivNew ++ B)) n =
        pr.hmacF c.hash hk (be32 n ++ (ctF ++ ivNew)) := by
      unfold aesHmac.macDigest
      rw [pAuth_three c htl hB]
    have hbuf3 : copyInto (ctF ++ (ivNew ++ B)) (p.length - 16)
        (List.take 16 (pr.hmacF c.hash hk (be32 n ++ (ctF ++ ivNew)))) =
        ctF ++ (ivNew ++ List.take 16 (pr.hmacF c.hash hk (be32 n ++ (ctF ++ ivNew)))) := by
      rw [copyInto_eq3 (by rw [length_three, hctFlen, hiv, hB, hdglen]; omega)]
      rw [hdglen]
      rw [take_two_of_three _ (by rw [hctFlen, hiv]; omega)]
      rw [List.drop_eq_nil_of_le (by rw [length_three, hctFlen, hiv, hB]; omega)]
      rw [List.append_nil, List.append_assoc]
    rw [hblen, hdg, hbuf3]
    unfold encSpec
    simp only [if_pos hn, ← hks, ← hxct, ← hctF]
  · -- other pages: the ciphertext is used as-is
    simp only [if_neg hn]
    have hblen : (xct ++ (ivNew ++ B)).length - 16 = p.length - 16 := by
      rw [length_three, hxlen, hiv, hB]; omega
    have hdg : aesHmac.macDigest pr c hk (xct ++ (ivNew ++ B)) n =
        pr.hmacF c.hash hk (be32 n ++ (xct ++ ivNew)) := by
      unfold aesHmac.macDigest
      rw [pAuth_three c htl hB]
    have hbuf3 : copyInto (xct ++ (ivNew ++ B)) (p.length - 16)
        (List.take 16 (pr.hmacF c.hash hk (be32 n ++ (xct ++ ivNew)))) =
        xct ++ (ivNew ++ List.take 16 (pr.hmacF c.hash hk (be32 n ++ (xct ++ ivNew)))) := by
      rw [copyInto_eq3 (by rw [length_three, hxlen, hiv, hB, hdglen]; omega)]
      rw [hdglen]
      rw [take_two_of_three _ (by rw [hxlen, hiv]; omega)]
      rw [List.drop_eq_nil_of_le (by rw [length_three, hxlen, hiv, hB]; omega)]
      rw [List.append_nil, List.append_assoc]
    rw [hblen, hdg, hbuf3]
    unfold encSpec
    simp only [if_neg hn, ← hks, ← hxct]

theorem xorBytes_nil (a : List Nat) : xorBytes a [] = [] := by
  cases a <;> rfl

theorem xorBytes_take (a b : List Nat) (n : Nat) :
    (xorBytes a b).take n = xorBytes (a.take n) (b.take n) := by
  induction a generalizing b n with
  | nil => simp [xorBytes]
  | cons x xs ih =>
    cases b with
    | nil => simp [xorBytes, xorBytes_nil]
    | cons y ys =>
      cases n with
      | zero => simp [xorBytes]
      | succ m => simp [xorBytes, ih]

theorem xorBytes_drop (a b : List Nat) (n : Nat) :
    (xorBytes a b).drop n = xorBytes (a.drop n) (b.drop n) := by
  induction a generalizing b n with
  | nil => simp [xorBytes]
  | cons x xs ih =>
    cases b with
    | nil => simp [xorBytes, xorBytes_nil]
    | cons y ys =>
      cases n with
      | zero => simp
      | succ m => simp [xorBytes, ih]

theorem cipher_gt_one (pr : Prims) (c : aesHmac) (n : Nat) (iv bk hk : List Nat)
    (hn : 1 < n) (hb : c.block = some bk) (hh : c.hmacKey = some hk) :
    aesHmac.cipher pr c n iv = CipherOut.keys bk iv hk := by
  unfold aesHmac.cipher
  rw [if_pos hn, hb, hh]

theorem cipher_one (pr : Prims) (c : aesHmac) (iv : List Nat)
    (hl1 : ∀ h k m, (pr.hmacF h k m).length = HashId.size h)
    (hkl : c.kLen = 16 ∨ c.kLen = 24 ∨ c.kLen = 32) :
    aesHmac.cipher pr c 1 iv =
      CipherOut.keys
        (((hkdf pr c.hash c.p1k iv (2 * c.kLen + 16) c.p1i).take
            (2 * c.kLen)).take c.kLen)
        ((hkdf pr c.hash c.p1k iv (2 * c.kLen + 16) c.p1i).drop (2 * c.kLen))
        (((hkdf pr c.hash c.p1k iv (2 * c.kLen + 16) c.p1i).take
            (2 * c.kLen)).drop c.kLen) := by
  unfold aesHmac.cipher
  rw [if_neg (by omega)]
  have hdk : (hkdf pr c.hash c.p1k iv (2 * c.kLen + 16) c.p1i).length =
      2 * c.kLen + 16 := hkdf_length pr c.hash c.p1k iv c.p1i _ (hl1 c.hash)
  have hok : aesKeyOk
      (((hkdf pr c.hash c.p1k iv (2 * c.kLen + 16) c.p1i).take
        (2 * c.kLen)).take c.kLen) = true := by
    unfold aesKeyOk
    rw [List.take_take, List.length_take]
    rw [hdk]
    rcases hkl with h | h | h <;> simp [h]
  rw [if_pos hok]

theorem pTag_buf_congr (c : aesHmac) (b p : List Nat) :
    aesHmac.pTag { c with buf := b } p = aesHmac.pTag c p := rfl

theorem pAuth_buf_congr (c : aesHmac) (b p : List Nat) :
    aesHmac.pAuth { c with buf := b } p = aesHmac.pAuth c p := rfl

theorem decode_triple (pr : Prims) (c : aesHmac) (ctF ivN dg16 : List Nat)
    (n : Nat) (bk ck siv hk : List Nat)
    (hl2 : ∀ md k iv L, (pr.stream md k iv L).length = L)
    (hblock : c.block = some bk)
    (hcf : aesHmac.cipher pr c n ivN = CipherOut.keys ck siv hk)
    (htl : c.tLen = 16)
    (hctF : 24 ≤ ctF.length)
    (hivN : ivN.length = 16) (hdg : dg16.length = 16)
    (hdig : (aesHmac.macDigest pr c hk (ctF ++ (ivN ++ dg16)) n).take 16 =
      dg16) :
    aesHmac.Decode pr { c with buf := ctF ++ (ivN ++ dg16) }
        (ctF ++ (ivN ++ dg16)) n =
      (Outcome.ok (),
        (if n = 1 then
          (xorBytes ctF (pr.stream c.mode ck siv ctF.length)).take 16 ++
            ((ctF.drop 16).take 8 ++
              ((xorBytes ctF (pr.stream c.mode ck siv ctF.length)).drop 24 ++
                (ivN ++ dg16)))
        else xorBytes ctF (pr.stream c.mode ck siv ctF.length) ++
          (ivN ++ dg16)),
        { c with buf := if n = 1 then
            (ctF.drop 16).take 8 ++ (ctF ++ (ivN ++ dg16)).drop 8
          else ctF ++ (ivN ++ dg16) }) := by
  have helen : (ctF ++ (ivN ++ dg16)).length = ctF.length + 32 := by
    rw [length_three, hivN, hdg]
  unfold aesHmac.Decode
  simp only [cipher_buf_congr, pIV_buf_congr, pTag_buf_congr,
    macDigest_buf_congr, pText_buf_congr,
    pIV_three c htl hivN hdg, hcf]
  simp only [htl, helen]
  have hbufA : copyInto (ctF ++ (ivN ++ dg16)) (ctF.length + 32 - 16)
      ((aesHmac.macDigest pr c hk (ctF ++ (ivN ++ dg16)) n).take 16) =
      ctF ++ (ivN ++ dg16) := by
    rw [hdig]
    rw [copyInto_eq3 (by rw [helen, hdg]; omega)]
    rw [hdg, take_two_of_three _ (by rw [hivN]; omega)]
    rw [List.drop_eq_nil_of_le (by rw [helen]; omega)]
    rw [List.append_nil, List.append_assoc]
  rw [hbufA]
  rw [if_pos rfl]
  simp only [pText_three c htl hivN hdg]
  set ks := pr.stream c.mode ck siv ctF.length with hks
  have hkslen : ks.length = ctF.length := hl2 ..
  have hxr : (xorBytes ctF ks).length = ctF.length := by
    rw [xorBytes_length, hkslen]; omega
  have hp1 : copyInto (ctF ++ (ivN ++ dg16)) 0 (xorBytes ctF ks) =
      xorBytes ctF ks ++ (ivN ++ dg16) := by
    rw [copyInto_eq3 (by rw [helen, hxr]; omega)]
    rw [List.take_zero, List.nil_append, Nat.zero_add, hxr,
      List.drop_left' rfl]
  by_cases hn : n = 1
  · simp only [if_pos hn]
    have h16 : List.take 8 (List.drop 16 (ctF ++ (ivN ++ dg16))) =
        (ctF.drop 16).take 8 := by
      rw [List.drop_append_eq_append_drop]
      rw [show (16 - ctF.length : Nat) = 0 by omega, List.drop_zero]
      rw [List.take_append_of_le_length (by rw [List.length_drop]; omega)]
    have hbufB : copyInto (ctF ++ (ivN ++ dg16)) 0 ((ctF.drop 16).take 8) =
        (ctF.drop 16).take 8 ++ (ctF ++ (ivN ++ dg16)).drop 8 := by
      rw [copyInto_eq3 (by
        rw [helen, length_take_of_le (by rw [List.length_drop]; omega)]
        omega)]
      rw [List.take_zero, List.nil_append, Nat.zero_add,
        length_take_of_le (by rw [List.length_drop]; omega)]
    have htk8 : ((ctF.drop 16).take 8 ++ (ctF ++ (ivN ++ dg16)).drop 8).take 8
        = (ctF.drop 16).take 8 :=
      List.take_left' (length_take_of_le (by rw [List.length_drop]; omega))
    have hp2 : copyInto (xorBytes ctF ks ++ (ivN ++ dg16)) 16
        ((ctF.drop 16).take 8) =
        (xorBytes ctF ks).take 16 ++ ((ctF.drop 16).take 8 ++
          ((xorBytes ctF ks).drop 24 ++ (ivN ++ dg16))) := by
      rw [copyInto_eq3 (by
        rw [List.length_append, hxr,
          length_take_of_le (by rw [List.length_drop]; omega)]
        omega)]
      rw [length_take_of_le (by rw [List.length_drop]; omega)]
      rw [List.take_append_of_le_length (by rw [hxr]; omega)]
      rw [show (16 + 8 : Nat) = 24 from rfl]
      rw [List.drop_append_eq_append_drop]
      rw [show (24 - (xorBytes ctF ks).length : Nat) = 0 by rw [hxr]; omega,
        List.drop_zero]
    simp only [h16, hbufB, hp1, htk8, hp2]
    rw [if_neg (by simp [hblock])]
  · simp only [if_neg hn]
    simp only [hp1]
    rw [if_neg (by simp [hblock])]

/-- C1 (amended): on an initialized codec, for every page size in the
specified set, every page number n >= 1, and any key size, mode, and hash,
decoding the result of Encode(p, n) at page number n succeeds and yields a
page of the same length agreeing with p on the encrypted region
bytes 0 .. P-T-16 (the IV and tag slots of the decoded page instead hold
the fresh IV and newly computed tag). -/
theorem C1_round_trip_amended (pr : Prims) (c : aesHmac) (p ivNew : List Nat)
    (n : Nat) (mkR : Option (List Nat)) (bk hkDb : List Nat)
    (hl1 : ∀ h k m, (pr.hmacF h k m).length = HashId.size h)
    (hl2 : ∀ md k iv L, (pr.stream md k iv L).length = L)
    (hblock : c.block = some bk)
    (hhk : c.hmacKey = some hkDb)
    (htl : c.tLen = 16)
    (hkl : c.kLen = 16 ∨ c.kLen = 24 ∨ c.kLen = 32)
    (hbuf : c.buf.length = p.length)
    (hP : p.length = 512 ∨ p.length = 1024 ∨ p.length = 4096 ∨
      p.length = 65536)
    (hn : 1 ≤ n)
    (hiv : ivNew.length = 16) :
    ∃ e c1, aesHmac.Encode pr c p n (some ivNew) mkR =
        (Outcome.ok e, p, c1) ∧
      ∃ d c2, aesHmac.Decode pr c1 e n = (Outcome.ok (), d, c2) ∧
        d.take (p.length - 32) = p.take (p.length - 32) ∧
        d.length = p.length := by
  have hL : 56 ≤ p.length := by rcases hP with h | h | h | h <;> omega
  obtain ⟨ck, siv, hk, hcf⟩ :
      ∃ ck siv hk, aesHmac.cipher pr c n ivNew = CipherOut.keys ck siv hk := by
    rcases Nat.lt_or_ge 1 n with hgt | hle
    · exact ⟨bk, ivNew, hkDb,
        cipher_gt_one pr c n ivNew bk hkDb hgt hblock hhk⟩
    · have hn1 : n = 1 := by omega
      subst hn1
      exact ⟨_, _, _, cipher_one pr c ivNew hl1 hkl⟩
  have henc := encode_shape pr c p ivNew n mkR bk ck siv hk hl1 hl2 hblock
    hcf htl hbuf hL hiv
  refine ⟨_, _, henc, ?_⟩
  set ks := pr.stream c.mode ck siv (p.length - 32) with hksdef
  have hkslen : ks.length = p.length - 32 := hl2 ..
  set xct := xorBytes (p.take (p.length - 32)) ks with hxctdef
  have hptlen : (p.take (p.length - 32)).length = p.length - 32 :=
    length_take_of_le (by omega)
  have hxctlen : xct.length = p.length - 32 := by
    rw [hxctdef, xorBytes_length, hkslen, hptlen]; omega
  set ctF := (if n = 1 then
      xct.take 16 ++ ((p.drop 16).take 8 ++ xct.drop 24) else xct)
    with hctFdef
  set dgF := pr.hmacF c.hash hk (be32 n ++ (ctF ++ ivNew)) with hdgdef
  have hespec : encSpec pr c p ivNew n ck siv hk =
      ctF ++ (ivNew ++ dgF.take 16) := rfl
  have hctlen : ctF.length = p.length - 32 := by
    rw [hctFdef]
    by_cases hn1 : n = 1
    · rw [if_pos hn1]
      simp only [List.length_append, List.length_take, List.length_drop,
        hxctlen]
      omega
    · rw [if_neg hn1]
      exact hxctlen
  have hdg16 : (dgF.take 16).length = 16 :=
    length_take_of_le (by rw [hdgdef, hl1]; exact HashId.sixteen_le_size _)
  have hdig : (aesHmac.macDigest pr c hk (ctF ++ (ivNew ++ dgF.take 16))
      n).take 16 = dgF.take 16 := by
    unfold aesHmac.macDigest
    rw [pAuth_three c htl hdg16, ← hdgdef]
  have hdec := decode_triple pr c ctF ivNew (dgF.take 16) n bk ck siv hk hl2
    hblock hcf htl (by omega) hiv hdg16 hdig
  rw [hctlen, ← hksdef] at hdec
  rw [hespec]
  refine ⟨_, _, hdec, ?_, ?_⟩
  · -- the decoded page agrees with p on the first P-32 bytes
    by_cases hn1 : n = 1
    · simp only [if_pos hn1]
      have hfull : xorBytes xct ks = p.take (p.length - 32) := by
        rw [hxctdef]
        exact xorBytes_cancel (by rw [hptlen, hkslen])
      have hctF1 : ctF = xct.take 16 ++ ((p.drop 16).take 8 ++ xct.drop 24) := by
        rw [hctFdef, if_pos hn1]
      have hx16 : (xct.take 16).length = 16 :=
        length_take_of_le (by omega)
      have hp8 : ((p.drop 16).take 8).length = 8 :=
        length_take_of_le (by rw [List.length_drop]; omega)
      have hcomp1 : (xorBytes ctF ks).take 16 =
          (p.take (p.length - 32)).take 16 := by
        rw [xorBytes_take, hctF1, List.take_left' hx16, ← xorBytes_take, hfull]
      have hcomp2 : (ctF.drop 16).take 8 = (p.drop 16).take 8 := by
        rw [hctF1, List.drop_left' hx16, List.take_left' hp8]
      have hcomp3 : (xorBytes ctF ks).drop 24 =
          (p.take (p.length - 32)).drop 24 := by
        rw [xorBytes_drop, hctF1]
        rw [List.drop_append_eq_append_drop,
          List.drop_eq_nil_of_le (by rw [hx16]; omega), List.nil_append]
        rw [hx16, show (24 - 16 : Nat) = 8 from rfl,
          List.drop_left' hp8, ← xorBytes_drop, hfull]
      rw [hcomp1, hcomp2, hcomp3]
      -- reassemble p.take (p.length - 32) from its three segments
      rw [show (p.take (p.length - 32)).take 16 ++
          ((p.drop 16).take 8 ++ ((p.take (p.length - 32)).drop 24 ++
            (ivNew ++ dgF.take 16))) =
          ((p.take (p.length - 32)).take 16 ++ ((p.drop 16).take 8 ++
            (p.take (p.length - 32)).drop 24)) ++ (ivNew ++ dgF.take 16) by
        simp [List.append_assoc]]
      have hseg : (p.take (p.length - 32)).take 16 ++ ((p.drop 16).take 8 ++
          (p.take (p.length - 32)).drop 24) = p.take (p.length - 32) := by
        have h8 : (p.drop 16).take 8 = ((p.take (p.length - 32)).drop 16).take 8 := by
          rw [List.drop_take, show (p.length - 32 - 16 : Nat) = p.length - 48 by omega,
            List.take_take, show min 8 (p.length - 48) = 8 by omega]
        rw [h8, ← List.append_assoc, ← List.take_add]
        rw [show (16 + 8 : Nat) = 24 from rfl]
        exact List.take_append_drop 24 (p.take (p.length - 32))
      rw [hseg, List.take_left' hptlen]
    · simp only [if_neg hn1]
      have hctFn : ctF = xct := by rw [hctFdef, if_neg hn1]
      have hfull : xorBytes xct ks = p.take (p.length - 32) := by
        rw [hxctdef]
        exact xorBytes_cancel (by rw [hptlen, hkslen])
      rw [hctFn, hfull, List.take_left' hptlen]
  · -- the decoded page has the same length as p
    by_cases hn1 : n = 1
    · simp only [if_pos hn1]
      simp only [List.length_append, List.length_take, List.length_drop,
        xorBytes_length, hctlen, hkslen, hiv, hdg16]
      omega
    · simp only [if_neg hn1]
      simp only [List.length_append, xorBytes_length, hctlen, hkslen, hiv,
        hdg16]
      omega

set_option maxRecDepth 10000 in
theorem C1_round_trip_counterexample :
    (aesHmac.Decode trivPrims
        (aesHmac.Encode trivPrims cexCodec cexPage 2 (some cexIV) none).2.2
        ((aesHmac.Encode trivPrims cexCodec cexPage 2 (some cexIV)
          none).2.2).buf 2).2.1 ≠ cexPage := by decide

set_option maxRecDepth 10000 in
theorem C1_round_trip_witness :
    ∃ e c1, aesHmac.Encode trivPrims cexCodec cexPage 2 (some cexIV) none =
        (Outcome.ok e, cexPage, c1) ∧
      ∃ d c2, aesHmac.Decode trivPrims c1 e 2 = (Outcome.ok (), d, c2) ∧
        d.take (cexPage.length - 32) = cexPage.take (cexPage.length - 32) ∧
        d.length = cexPage.length :=
  C1_round_trip_amended trivPrims cexCodec cexPage cexIV 2 none
    (List.replicate 16 0) (List.replicate 16 9)
    (by intro h k m; simp [trivPrims])
    (by intro md k iv L; simp [trivPrims])
    rfl rfl rfl (Or.inl rfl) rfl
    (Or.inl (by simp [cexPage]))
    (by omega) (by simp [cexIV])

theorem pTag_copyInto_tail (c : aesHmac) (b v : List Nat) (htl : c.tLen = 16)
    (hv : v.length = 16) (hb : 16 ≤ b.length) :
    aesHmac.pTag c (copyInto b (b.length - c.tLen) v) = v := by
  rw [htl]
  rw [copyInto_eq3 (by omega)]
  unfold aesHmac.pTag
  rw [htl]
  have h1 : b.length - 16 + v.length = b.length := by omega
  rw [h1, List.drop_eq_nil_of_le (le_refl b.length), List.append_nil]
  have h2 : (b.take (b.length - 16) ++ v).length = b.length := by
    rw [List.length_append, length_take_of_le (by omega)]
    omega
  rw [h2]
  exact List.drop_left' (length_take_of_le (by omega))

/-- C2: if the recomputed tag's first T bytes do not match the page's tag
slot, Decode returns CodecError and the input page is returned unchanged
(only the codec's internal buffer has been written). -/
theorem C2_decode_tag_mismatch (pr : Prims) (c : aesHmac) (p : List Nat)
    (n : Nat) (ck siv hk : List Nat)
    (hl1 : ∀ h k m, (pr.hmacF h k m).length = HashId.size h)
    (hcf : aesHmac.cipher pr c n (aesHmac.pIV c p) = CipherOut.keys ck siv hk)
    (htl : c.tLen = 16)
    (hbuf : 32 ≤ c.buf.length)
    (hne : (aesHmac.macDigest pr c hk p n).take c.tLen ≠ aesHmac.pTag c p) :
    aesHmac.Decode pr c p n =
      (Outcome.err Err.codecErr, p,
        { c with buf := (copyInto c.buf (c.buf.length - c.tLen)
            ((aesHmac.macDigest pr c hk p n).take c.tLen)) }) := by
  have hdg16 : ((aesHmac.macDigest pr c hk p n).take c.tLen).length = 16 := by
    rw [htl]
    exact length_take_of_le (by
      unfold aesHmac.macDigest
      rw [hl1]
      exact HashId.sixteen_le_size _)
  unfold aesHmac.Decode
  simp only [hcf]
  rw [if_neg (by
    rw [pTag_copyInto_tail c c.buf _ htl hdg16 (by omega)]
    exact hne)]

theorem init_new_shape (pr : Prims) (c : aesHmac) (p mkv : List Nat)
    (hl1 : ∀ h k m, (pr.hmacF h k m).length = HashId.size h)
    (hkl : c.kLen = 16 ∨ c.kLen = 24 ∨ c.kLen = 32) :
    aesHmac.init pr c p 1 true (some mkv) =
      (true, bootPage c p mkv,
        { c with block := some ((bootDk pr c p mkv).take c.kLen),
                 hmacKey := some ((bootDk pr c p mkv).drop c.kLen) }) := by
  unfold aesHmac.init
  rw [if_neg (fun h => h rfl)]
  simp only []
  have hok : aesKeyOk ((bootDk pr c p mkv).take c.kLen) = true := by
    unfold aesKeyOk
    rw [length_take_of_le (by
      unfold bootDk
      rw [hkdf_length pr c.hash _ _ _ _ (hl1 c.hash)]
      omega)]
    rcases hkl with h | h | h <;> simp [h]
  simp only [if_true]
  simp only [bootDk, bootPage] at hok
  rw [if_pos hok]
  simp only [bootPage, bootDk]

theorem init_old_shape (pr : Prims) (c : aesHmac) (p : List Nat)
    (mkR : Option (List Nat))
    (hl1 : ∀ h k m, (pr.hmacF h k m).length = HashId.size h)
    (hkl : c.kLen = 16 ∨ c.kLen = 24 ∨ c.kLen = 32) :
    aesHmac.init pr c p 1 false mkR =
      (true, p,
        { c with
          block := some ((hkdf pr c.hash (aesHmac.pKey c p) [] (2 * c.kLen)
            (p.take 16)).take c.kLen),
          hmacKey := some ((hkdf pr c.hash (aesHmac.pKey c p) [] (2 * c.kLen)
            (p.take 16)).drop c.kLen) }) := by
  unfold aesHmac.init
  rw [if_neg (fun h => h rfl)]
  have hok : aesKeyOk ((hkdf pr c.hash (aesHmac.pKey c p) [] (2 * c.kLen)
      (p.take 16)).take c.kLen) = true := by
    unfold aesKeyOk
    rw [length_take_of_le (by
      rw [hkdf_length pr c.hash _ _ _ _ (hl1 c.hash)]
      omega)]
    rcases hkl with h | h | h <;> simp [h]
  simp only [if_false, Bool.false_eq_true]
  rw [if_pos hok]

theorem encode_boot_bridge (pr : Prims) (c : aesHmac) (p ivNew mkv : List Nat)
    (hl1 : ∀ h k m, (pr.hmacF h k m).length = HashId.size h)
    (hblock : c.block = none)
    (hkl : c.kLen = 16 ∨ c.kLen = 24 ∨ c.kLen = 32) :
    aesHmac.Encode pr c p 1 (some ivNew) (some mkv) =
      aesHmac.Encode pr
        { c with block := some ((bootDk pr c p mkv).take c.kLen),
                 hmacKey := some ((bootDk pr c p mkv).drop c.kLen) }
        (bootPage c p mkv) 1 (some ivNew) (some mkv) := by
  unfold aesHmac.Encode
  simp only [hblock]
  simp only [if_true]
  rw [init_new_shape pr
    { c with buf := (copyInto c.buf (c.buf.length - c.tLen - 16)
        (List.take 16 ivNew)), block := none } p mkv hl1 hkl]
  rw [if_neg (fun h => Option.noConfusion h)]
  rfl

theorem encode_prng_fail (pr : Prims) (c : aesHmac) (p : List Nat) (n : Nat)
    (mkR : Option (List Nat)) :
    aesHmac.Encode pr c p n none mkR = (Outcome.err Err.prngErr, p, c) := rfl

theorem init_mk_fail (pr : Prims) (c : aesHmac) (p : List Nat) :
    aesHmac.init pr c p 1 true none = (false, p, c) := by
  unfold aesHmac.init
  rw [if_neg (fun h => h rfl)]
  rfl

theorem copyInto_take_le {p v : List Nat} {off m : Nat} (h1 : m ≤ off)
    (h2 : m ≤ p.length) :
    (copyInto p off v).take m = p.take m := by
  unfold copyInto
  rw [List.append_assoc,
    List.take_append_of_le_length (by rw [List.length_take]; omega),
    List.take_take, Nat.min_eq_left h1]

theorem header_of_take24 {x p : List Nat} (h : x.take 24 = p.take 24) :
    (x.drop 16).take 8 = (p.drop 16).take 8 := by
  have hx := List.drop_take 24 16 x
  have hp := List.drop_take 24 16 p
  simp only [show (24 - 16 : Nat) = 8 from rfl] at hx hp
  rw [← hx, ← hp, h]

theorem bootPage_length (c : aesHmac) (p mkv : List Nat) :
    (bootPage c p mkv).length = p.length := copyInto_length ..

theorem bootPage_header (c : aesHmac) (p mkv : List Nat) (htl : c.tLen = 16)
    (hkl : c.kLen = 16 ∨ c.kLen = 24 ∨ c.kLen = 32)
    (hL : 88 ≤ p.length) :
    ((bootPage c p mkv).drop 16).take 8 = (p.drop 16).take 8 := by
  apply header_of_take24
  unfold bootPage
  exact copyInto_take_le (by omega) (by omega)

theorem cipher_one_block_congr (pr : Prims) (c : aesHmac) (iv : List Nat)
    (X Y : Option (List Nat)) :
    aesHmac.cipher pr { c with block := X, hmacKey := Y } 1 iv =
      aesHmac.cipher pr c 1 iv := rfl

theorem encSpec_block_congr (pr : Prims) (c : aesHmac) (p ivNew : List Nat)
    (n : Nat) (ck siv hk : List Nat) (X Y : Option (List Nat)) :
    encSpec pr { c with block := X, hmacKey := Y } p ivNew n ck siv hk =
      encSpec pr c p ivNew n ck siv hk := rfl

theorem encSpec_header (pr : Prims) (c : aesHmac) (p ivNew : List Nat)
    (ck siv hk : List Nat)
    (hl2 : ∀ md k iv L, (pr.stream md k iv L).length = L)
    (hL : 56 ≤ p.length) :
    ((encSpec pr c p ivNew 1 ck siv hk).drop 16).take 8 =
      (p.drop 16).take 8 := by
  unfold encSpec
  simp only [eq_self_iff_true, if_true]
  have hct : (xorBytes (p.take (p.length - 32))
      (pr.stream c.mode ck siv (p.length - 32))).length = p.length - 32 := by
    rw [xorBytes_length, hl2, length_take_of_le (by omega)]
    omega
  have hx16 : ((xorBytes (p.take (p.length - 32))
      (pr.stream c.mode ck siv (p.length - 32))).take 16).length = 16 :=
    length_take_of_le (by omega)
  have hp8 : ((p.drop 16).take 8).length = 8 :=
    length_take_of_le (by rw [List.length_drop]; omega)
  rw [List.drop_append_eq_append_drop]
  rw [List.drop_append_eq_append_drop]
  rw [hx16, show (16 - 16 : Nat) = 0 from rfl, List.drop_zero]
  rw [List.drop_eq_nil_of_le (le_of_eq hx16), List.nil_append]
  rw [List.take_append_of_le_length (by rw [List.length_append, hp8]; omega)]
  exact List.take_left' hp8

theorem copyInto_header_extract (p1x bA v8 : List Nat) (h8 : v8.length = 8)
    (hbA : 8 ≤ bA.length) (hp1 : 24 ≤ p1x.length) :
    ((copyInto p1x 16 ((copyInto bA 0 v8).take 8)).drop 16).take 8 = v8 := by
  have h1 : copyInto bA 0 v8 = v8 ++ bA.drop 8 := by
    rw [copyInto_eq3 (by omega)]
    rw [List.take_zero, List.nil_append, Nat.zero_add, h8]
  rw [h1, List.take_left' h8]
  rw [copyInto_eq3 (by rw [h8]; omega)]
  rw [List.drop_left' (length_take_of_le (by omega : (16 : Nat) ≤ p1x.length))]
  exact List.take_left' h8

/-- C3: Encode of page 1 keeps bytes 16 through 23 of the returned buffer
bit-identical to the input page, and a successful in-place Decode of page 1
leaves bytes 16 through 23 equal to their pre-decode on-disk values. -/
theorem C3_page1_header_preservation (pr : Prims) (c : aesHmac)
    (p : List Nat) (ivR mkR : Option (List Nat))
    (hl1 : ∀ h k m, (pr.hmacF h k m).length = HashId.size h)
    (hl2 : ∀ md k iv L, (pr.stream md k iv L).length = L)
    (htl : c.tLen = 16)
    (hkl : c.kLen = 16 ∨ c.kLen = 24 ∨ c.kLen = 32)
    (hbuf : c.buf.length = p.length)
    (hL : 88 ≤ p.length)
    (hivR : ∀ iv, ivR = some iv → iv.length = 16) :
    (((aesHmac.Encode pr c p 1 ivR mkR).1.isOk = true →
      (((aesHmac.Encode pr c p 1 ivR mkR).2.2.buf).drop 16).take 8 =
        (p.drop 16).take 8) ∧
    ((aesHmac.Decode pr c p 1).1 = Outcome.ok () →
      (((aesHmac.Decode pr c p 1).2.1).drop 16).take 8 =
        (p.drop 16).take 8)) := by
  constructor
  · cases ivR with
    | none =>
      rw [encode_prng_fail]
      intro h
      simp [Outcome.isOk] at h
    | some ivNew =>
      have hiv : ivNew.length = 16 := hivR ivNew rfl
      cases hmb : c.block with
      | some bk =>
        rw [encode_shape pr c p ivNew 1 mkR bk _ _ _ hl1 hl2 hmb
          (cipher_one pr c ivNew hl1 hkl) htl hbuf (by omega) hiv]
        intro _
        exact encSpec_header pr c p ivNew _ _ _ hl2 (by omega)
      | none =>
        cases mkR with
        | none =>
          have hfail : aesHmac.Encode pr c p 1 (some ivNew) none =
              (Outcome.err Err.codecErr, p,
                { c with buf := (copyInto c.buf (c.buf.length - c.tLen - 16)
                    (ivNew.take 16)), block := none }) := by
            unfold aesHmac.Encode
            simp only [hmb]
            simp only [if_true]
            rw [init_mk_fail]
          rw [hfail]
          intro h
          simp [Outcome.isOk] at h
        | some mkv =>
          rw [encode_boot_bridge pr c p ivNew mkv hl1 hmb hkl]
          rw [encode_shape pr
            { c with block := some ((bootDk pr c p mkv).take c.kLen),
                     hmacKey := some ((bootDk pr c p mkv).drop c.kLen) }
            (bootPage c p mkv) ivNew 1 (some mkv) _ _ _ _ hl1 hl2 rfl
            ((cipher_one_block_congr pr c ivNew _ _).trans
              (cipher_one pr c ivNew hl1 hkl))
            htl (by rw [bootPage_length]; exact hbuf)
            (by rw [bootPage_length]; omega) hiv]
          intro _
          rw [encSpec_block_congr]
          exact (encSpec_header pr c (bootPage c p mkv) ivNew _ _ _ hl2
            (by rw [bootPage_length]; omega)).trans
            (bootPage_header c p mkv htl hkl hL)
  · have hcf := cipher_one pr c (aesHmac.pIV c p) hl1 hkl
    unfold aesHmac.Decode
    simp only [hcf]
    simp only [eq_self_iff_true, if_true]
    split
    · split
      · -- block cipher not yet initialized: init runs with the page unchanged
        split
        · next p3 cC heq =>
          intro _
          rw [init_old_shape pr _ _ none hl1 (by exact hkl)] at heq
          rw [Prod.mk.injEq, Prod.mk.injEq] at heq
          obtain ⟨-, h2, -⟩ := heq
          rw [← h2]
          exact copyInto_header_extract _ _ _
            (length_take_of_le (by rw [List.length_drop]; omega))
            (by rw [copyInto_length]; omega)
            (by rw [copyInto_length]; omega)
        · next p3 cC heq =>
          intro h
          simp at h
      · intro _
        exact copyInto_header_extract _ _ _
          (length_take_of_le (by rw [List.length_drop]; omega))
          (by rw [copyInto_length]; omega)
          (by rw [copyInto_length]; omega)
    · intro h
      simp at h

theorem C2_decode_tag_mismatch_witness :
    aesHmac.Decode trivPrims smallCodec smallPage 2 =
      (Outcome.err Err.codecErr, smallPage,
        { smallCodec with buf := (copyInto smallCodec.buf
            (smallCodec.buf.length - smallCodec.tLen)
            ((aesHmac.macDigest trivPrims smallCodec (List.replicate 16 9)
              smallPage 2).take smallCodec.tLen)) }) :=
  C2_decode_tag_mismatch trivPrims smallCodec smallPage 2
    (List.replicate 16 0) (aesHmac.pIV smallCodec smallPage)
    (List.replicate 16 9)
    (by intro h k m; simp [trivPrims])
    (by decide) rfl (by decide) (by decide)

set_option maxRecDepth 4000 in
theorem C3_page1_header_preservation_witness :
    ((aesHmac.Encode trivPrims c3state c3page 1
        (some (List.replicate 16 7)) none).1.isOk = true ∧
      (((aesHmac.Encode trivPrims c3state c3page 1
          (some (List.replicate 16 7)) none).2.2.buf).drop 16).take 8 =
        (c3page.drop 16).take 8) ∧
    ((aesHmac.Decode trivPrims c3state c3page 1).1 = Outcome.ok () ∧
      (((aesHmac.Decode trivPrims c3state c3page 1).2.1).drop 16).take 8 =
        (c3page.drop 16).take 8) := by
  have T := C3_page1_header_preservation trivPrims c3state c3page
    (some (List.replicate 16 7)) none
    (by intro h k m; simp [trivPrims])
    (by intro md k iv L; simp [trivPrims])
    (by decide) (by decide) rfl (by decide)
    (by intro iv h; cases h; decide)
  exact ⟨⟨by decide, T.1 (by decide)⟩, ⟨by decide, T.2 (by decide)⟩⟩

theorem encSpec_tag (pr : Prims) (c : aesHmac) (p ivNew : List Nat) (n : Nat)
    (ck siv hk : List Nat)
    (hl1 : ∀ h k m, (pr.hmacF h k m).length = HashId.size h)
    (htl : c.tLen = 16) :
    aesHmac.pTag c (encSpec pr c p ivNew n ck siv hk) =
      (pr.hmacF c.hash hk (be32 n ++
        aesHmac.pAuth c (encSpec pr c p ivNew n ck siv hk))).take 16 := by
  unfold encSpec
  set ks := pr.stream c.mode ck siv (p.length - 32) with hks
  set xct := xorBytes (p.take (p.length - 32)) ks with hxct
  set ctF := (if n = 1 then
      xct.take 16 ++ ((p.drop 16).take 8 ++ xct.drop 24) else xct) with hctF
  set dg := pr.hmacF c.hash hk (be32 n ++ (ctF ++ ivNew)) with hdg
  have h16 : (dg.take 16).length = 16 :=
    length_take_of_le (by rw [hdg, hl1]; exact HashId.sixteen_le_size _)
  rw [pTag_three c htl h16, pAuth_three c htl h16, ← hdg]

theorem cipher_one_hmacKey_congr (pr : Prims) (c : aesHmac) (iv : List Nat)
    (k : Option (List Nat)) :
    aesHmac.cipher pr { c with hmacKey := k } 1 iv =
      aesHmac.cipher pr c 1 iv := rfl

/-- C4 (amended): on page 1 the tag written by Encode is the HMAC under the
ephemeral per-page-1 key hk = dk[K..2K] derived via HKDF from the
user-supplied secret with the page IV as salt, and the encode output is
independent of the per-database MAC key held by the codec. -/
theorem C4_page1_tag_ephemeral_amended (pr : Prims) (c : aesHmac)
    (p ivNew : List Nat) (mkR : Option (List Nat)) (bk : List Nat)
    (hl1 : ∀ h k m, (pr.hmacF h k m).length = HashId.size h)
    (hl2 : ∀ md k iv L, (pr.stream md k iv L).length = L)
    (hblock : c.block = some bk)
    (htl : c.tLen = 16)
    (hkl : c.kLen = 16 ∨ c.kLen = 24 ∨ c.kLen = 32)
    (hbuf : c.buf.length = p.length)
    (hL : 88 ≤ p.length)
    (hiv : ivNew.length = 16) :
    aesHmac.pTag c ((aesHmac.Encode pr c p 1 (some ivNew) mkR).2.2.buf) =
      (pr.hmacF c.hash
        (((hkdf pr c.hash c.p1k ivNew (2 * c.kLen + 16) c.p1i).take
          (2 * c.kLen)).drop c.kLen)
        (be32 1 ++ aesHmac.pAuth c
          ((aesHmac.Encode pr c p 1 (some ivNew) mkR).2.2.buf))).take 16 ∧
    (∀ k1 k2 : Option (List Nat),
      (aesHmac.Encode pr { c with hmacKey := k1 } p 1 (some ivNew)
        mkR).2.2.buf =
      (aesHmac.Encode pr { c with hmacKey := k2 } p 1 (some ivNew)
        mkR).2.2.buf) := by
  constructor
  · rw [encode_shape pr c p ivNew 1 mkR bk _ _ _ hl1 hl2 hblock
      (cipher_one pr c ivNew hl1 hkl) htl hbuf (by omega) hiv]
    exact encSpec_tag pr c p ivNew 1 _ _ _ hl1 htl
  · intro k1 k2
    rw [encode_shape pr { c with hmacKey := k1 } p ivNew 1 mkR bk _ _ _
      hl1 hl2 hblock
      ((cipher_one_hmacKey_congr pr c ivNew k1).trans
        (cipher_one pr c ivNew hl1 hkl)) htl hbuf (by omega) hiv]
    rw [encode_shape pr { c with hmacKey := k2 } p ivNew 1 mkR bk _ _ _
      hl1 hl2 hblock
      ((cipher_one_hmacKey_congr pr c ivNew k2).trans
        (cipher_one pr c ivNew hl1 hkl)) htl hbuf (by omega) hiv]
    rfl

set_option maxRecDepth 4000 in
theorem C4_page1_tag_counterexample :
    aesHmac.pTag c4Codec
        ((aesHmac.Encode keyedPrims c4Codec smallPage 1 (some cexIV)
          none).2.2.buf) ≠
      (keyedPrims.hmacF c4Codec.hash (List.replicate 16 3)
        (be32 1 ++ aesHmac.pAuth c4Codec
          ((aesHmac.Encode keyedPrims c4Codec smallPage 1 (some cexIV)
            none).2.2.buf))).take c4Codec.tLen := by decide

set_option maxRecDepth 4000 in
theorem C4_page1_tag_ephemeral_witness :
    aesHmac.pTag c4Codec
        ((aesHmac.Encode keyedPrims c4Codec smallPage 1 (some cexIV)
          none).2.2.buf) =
      (keyedPrims.hmacF c4Codec.hash
        (((hkdf keyedPrims c4Codec.hash c4Codec.p1k cexIV
          (2 * c4Codec.kLen + 16) c4Codec.p1i).take
          (2 * c4Codec.kLen)).drop c4Codec.kLen)
        (be32 1 ++ aesHmac.pAuth c4Codec
          ((aesHmac.Encode keyedPrims c4Codec smallPage 1 (some cexIV)
            none).2.2.buf))).take 16 ∧
    (∀ k1 k2 : Option (List Nat),
      (aesHmac.Encode keyedPrims { c4Codec with hmacKey := k1 } smallPage 1
        (some cexIV) none).2.2.buf =
      (aesHmac.Encode keyedPrims { c4Codec with hmacKey := k2 } smallPage 1
        (some cexIV) none).2.2.buf) :=
  C4_page1_tag_ephemeral_amended keyedPrims c4Codec smallPage cexIV none
    (List.replicate 16 0)
    (by intro h k m; simp [keyedPrims])
    (by intro md k iv L; simp [keyedPrims])
    rfl rfl (Or.inl rfl) rfl (by decide) (by decide)

/-- C5: in the second go_codec_exec variant the encode test op&4 == 1 never
holds (bit 0 of op&4 is always clear), so the ops with bit 4 set (6 and 7)
are routed to Decode in place, contradicting the documented op bitmask; the
first variant dispatches on bit 4 as documented. -/
theorem C5_exec_dispatch_bug :
    execActionV2 6 = ExecAction.decode ∧ execActionV2 7 = ExecAction.decode ∧
    execActionV2 3 = ExecAction.decode ∧
    execActionV1 6 = ExecAction.encode ∧ execActionV1 7 = ExecAction.encode ∧
    execActionV1 3 = ExecAction.decode ∧
    (∀ op : Nat, execActionV2 op = ExecAction.decode) ∧
    go_codec_exec_v2 6 true false = ExecRet.nullPtr := by
  have hno : ∀ op : Nat, op &&& 4 ≠ 1 := by
    intro op h
    have h2 := congrArg (fun x => Nat.testBit x 0) h
    simp [Nat.testBit_and] at h2
  refine ⟨by decide, by decide, by decide, by decide, by decide, by decide,
    ?_, ?_⟩
  · intro op
    unfold execActionV2
    rw [if_neg (hno op)]
  · unfold go_codec_exec_v2
    rw [if_neg (hno 6)]
    rfl

/-- C6: with the block cipher uninitialized, Encode at n = 2 returns
CodecError leaving cipher and HMAC nil, but Decode at n = 2 calls
c.hmac.Reset() on the nil HMAC inside cipher() and panics instead of
returning CodecError. -/
theorem C6_uninitialized_nonpage1 :
    (aesHmac.Encode trivPrims freshCodec smallPage 2 (some cexIV) none).1 =
      Outcome.err Err.codecErr ∧
    (aesHmac.Encode trivPrims freshCodec smallPage 2 (some cexIV) none).2.1 =
      smallPage ∧
    ((aesHmac.Encode trivPrims freshCodec smallPage 2 (some cexIV)
      none).2.2).block = none ∧
    ((aesHmac.Encode trivPrims freshCodec smallPage 2 (some cexIV)
      none).2.2).hmacKey = none ∧
    aesHmac.Decode trivPrims freshCodec smallPage 2 =
      (Outcome.panicked, smallPage, freshCodec) := by decide

/-- C7: Reserve returns K + 16 + T; Resize panics exactly when the reserve
argument differs from Reserve(), and otherwise allocates a buffer of length
pageSize with capacity pageSize - T + outlen(H). -/
theorem C7_reserve_resize (c : aesHmac) (pageSize reserve : Nat) :
    aesHmac.Reserve c = c.kLen + 16 + c.tLen ∧
    (aesHmac.Resize c pageSize reserve = none ↔
      reserve ≠ aesHmac.Reserve c) ∧
    (reserve = aesHmac.Reserve c →
      ∃ c2 cap, aesHmac.Resize c pageSize reserve = some (c2, cap) ∧
        c2.buf.length = pageSize ∧
        cap = pageSize - c.tLen + HashId.size c.hash) := by
  refine ⟨rfl, ?_, ?_⟩
  · unfold aesHmac.Resize
    by_cases h : reserve ≠ aesHmac.Reserve c
    · rw [if_pos h]
      simp [h]
    · rw [if_neg h]
      simp [h]
  · intro h
    refine ⟨{ c with buf := List.replicate pageSize 0 },
      pageSize - c.tLen + HashId.size c.hash, ?_, ?_, rfl⟩
    · unfold aesHmac.Resize
      rw [if_neg (by omega)]
    · simp

theorem C7_reserve_resize_witness :
    aesHmac.Reserve smallCodec = smallCodec.kLen + 16 + smallCodec.tLen ∧
    (aesHmac.Resize smallCodec 512 48 = none ↔
      (48 : Nat) ≠ aesHmac.Reserve smallCodec) ∧
    ∃ c2 cap, aesHmac.Resize smallCodec 512 48 = some (c2, cap) ∧
      c2.buf.length = 512 ∧
      cap = 512 - smallCodec.tLen + HashId.size smallCodec.hash :=
  ⟨(C7_reserve_resize smallCodec 512 48).1,
   (C7_reserve_resize smallCodec 512 48).2.1,
   (C7_reserve_resize smallCodec 512 48).2.2 (by decide)⟩

theorem config_unknown (c : aesHmac) (opts : List String) (k : String)
    (hmem : k ∈ opts) (hbad : k ∉ ["192", "256", "ofb", "sha256"]) :
    ∃ k2, k2 ∉ ["192", "256", "ofb", "sha256"] ∧
      aesHmac.config c opts =
        Except.error (Err.misuseErr ("invalid codec option: " ++ k2)) := by
  induction opts generalizing c with
  | nil => cases hmem
  | cons h t ih =>
    by_cases hh : h ∈ ["192", "256", "ofb", "sha256"]
    · have hne : k ≠ h := fun he => hbad (he ▸ hh)
      have hmem2 : k ∈ t := by
        cases hmem with
        | head => exact absurd rfl hne
        | tail _ hm => exact hm
      fin_cases hh <;>
        simpa [aesHmac.config, aesHmac.configOne] using ih _ hmem2
    · refine ⟨h, hh, ?_⟩
      simp only [List.mem_cons, List.mem_singleton] at hh
      push_neg at hh
      obtain ⟨h1, h2, h3, h4⟩ := hh
      simp [aesHmac.config, aesHmac.configOne, h1, h2, h3, h4]

/-- C8: the tokens 192, 256, ofb, sha256 set K, the mode, and the hash as
specified; any other token fails construction with MisuseError naming the
token; with no options the constructed codec has the documented defaults. -/
theorem C8_option_handling (c : aesHmac) (k : String) (opts : List String)
    (key mkv : List Nat) :
    aesHmac.configOne c ("192") = Except.ok { c with kLen := 24 } ∧
    aesHmac.configOne c ("256") = Except.ok { c with kLen := 32 } ∧
    aesHmac.configOne c ("ofb") = Except.ok { c with mode := ModeId.ofb } ∧
    aesHmac.configOne c ("sha256") =
      Except.ok { c with hash := HashId.sha256 } ∧
    (k ∉ ["192", "256", "ofb", "sha256"] →
      aesHmac.configOne c k =
        Except.error (Err.misuseErr ("invalid codec option: " ++ k))) ∧
    (k ∈ opts → k ∉ ["192", "256", "ofb", "sha256"] →
      ∃ k2, k2 ∉ ["192", "256", "ofb", "sha256"] ∧
        aesHmac.config c opts =
          Except.error (Err.misuseErr ("invalid codec option: " ++ k2))) ∧
    newAesHmac key [] (some mkv) = Except.ok
      { key := key, p1k := mkv, p1i := goSqliteInfo, buf := [], kLen := 16,
        tLen := 16, hash := HashId.sha1, mode := ModeId.ctr, block := none,
        hmacKey := none } := by
  refine ⟨rfl, rfl, rfl, rfl, ?_, config_unknown c opts k, rfl⟩
  intro hbad
  simp only [List.mem_cons, List.mem_singleton] at hbad
  push_neg at hbad
  obtain ⟨h1, h2, h3, h4⟩ := hbad
  simp [aesHmac.configOne, h1, h2, h3, h4]

theorem C8_option_handling_witness :
    aesHmac.configOne smallCodec ("192") =
      Except.ok { smallCodec with kLen := 24 } ∧
    aesHmac.configOne smallCodec ("256") =
      Except.ok { smallCodec with kLen := 32 } ∧
    aesHmac.configOne smallCodec ("ofb") =
      Except.ok { smallCodec with mode := ModeId.ofb } ∧
    aesHmac.configOne smallCodec ("sha256") =
      Except.ok { smallCodec with hash := HashId.sha256 } ∧
    aesHmac.configOne smallCodec ("foo") =
      Except.error (Err.misuseErr ("invalid codec option: " ++ "foo")) ∧
    (∃ k2, k2 ∉ ["192", "256", "ofb", "sha256"] ∧
      aesHmac.config smallCodec ["256", "foo"] =
        Except.error (Err.misuseErr ("invalid codec option: " ++ k2))) ∧
    newAesHmac [1] [] (some [5]) = Except.ok
      { key := [1], p1k := [5], p1i := goSqliteInfo, buf := [], kLen := 16,
        tLen := 16, hash := HashId.sha1, mode := ModeId.ctr, block := none,
        hmacKey := none } := by
  have T := C8_option_handling smallCodec ("foo") ["256", "foo"] [1] [5]
  exact ⟨T.1, T.2.1, T.2.2.1, T.2.2.2.1, T.2.2.2.2.1 (by decide),
    T.2.2.2.2.2.1 (by decide) (by decide), T.2.2.2.2.2.2⟩

theorem config_keeps_limits (opts : List String) :
    ∀ c c2 : aesHmac, aesHmac.config c opts = Except.ok c2 →
      c.tLen = 16 → (c.kLen = 16 ∨ c.kLen = 24 ∨ c.kLen = 32) →
      c2.tLen = 16 ∧ (c2.kLen = 16 ∨ c2.kLen = 24 ∨ c2.kLen = 32) := by
  induction opts with
  | nil =>
    intro c c2 h ht hk
    cases h
    exact ⟨ht, hk⟩
  | cons k t ih =>
    intro c c2 h ht hk
    by_cases h192 : k = "192"
    · subst h192
      simp [aesHmac.config, aesHmac.configOne] at h
      exact ih _ _ h ht (Or.inr (Or.inl rfl))
    · by_cases h256 : k = "256"
      · subst h256
        simp [aesHmac.config, aesHmac.configOne] at h
        exact ih _ _ h ht (Or.inr (Or.inr rfl))
      · by_cases hofb : k = "ofb"
        · subst hofb
          simp [aesHmac.config, aesHmac.configOne] at h
          exact ih _ _ h ht hk
        · by_cases hsha : k = "sha256"
          · subst hsha
            simp [aesHmac.config, aesHmac.configOne] at h
            exact ih _ _ h ht hk
          · simp [aesHmac.config, aesHmac.configOne, h192, h256, hofb,
              hsha] at h

/-- C9 (amended): no reachable configuration of this codec has a reserve
above 64 (so none above 255: that refusal is vacuous), and the codec itself
performs no page-size-dependent refusal: any constructed codec accepts a
Resize to page size 512 with its own reserve, even when that reserve
exceeds 32. -/
theorem C9_reserve_limits_amended (opts : List String) (key mkv : List Nat)
    (c : aesHmac) (h : newAesHmac key opts (some mkv) = Except.ok c) :
    aesHmac.Reserve c ≤ 64 ∧ aesHmac.Reserve c ≤ 255 ∧
    ∃ c2 cap, aesHmac.Resize c 512 (aesHmac.Reserve c) = some (c2, cap) := by
  unfold newAesHmac at h
  have hlim := config_keeps_limits opts _ c h rfl (Or.inl rfl)
  obtain ⟨ht, hkl⟩ := hlim
  unfold aesHmac.Reserve
  refine ⟨by omega, by omega, ?_⟩
  refine ⟨{ c with buf := List.replicate 512 0 },
    512 - c.tLen + HashId.size c.hash, ?_⟩
  unfold aesHmac.Resize
  rw [if_neg (by unfold aesHmac.Reserve; omega)]

set_option maxRecDepth 4000 in
theorem C9_reserve_limits_counterexample :
    newAesHmac [] [] (some [5]) = Except.ok defCodec ∧
    aesHmac.Reserve defCodec = 48 ∧ (32 : Nat) < 48 ∧
    aesHmac.Resize defCodec 512 48 ≠ none := by
  refine ⟨rfl, rfl, by omega, ?_⟩
  unfold aesHmac.Resize
  rw [if_neg (by decide)]
  exact fun h => Option.noConfusion h

theorem C9_reserve_limits_witness :
    aesHmac.Reserve defCodec ≤ 64 ∧ aesHmac.Reserve defCodec ≤ 255 ∧
    ∃ c2 cap, aesHmac.Resize defCodec 512 (aesHmac.Reserve defCodec) =
      some (c2, cap) :=
  C9_reserve_limits_amended [] [] [5] defCodec rfl

theorem encode_page_initialized (pr : Prims) (c : aesHmac) (p : List Nat)
    (n : Nat) (ivR mkR : Option (List Nat)) (bk : List Nat)
    (hb : c.block = some bk) :
    (aesHmac.Encode pr c p n ivR mkR).2.1 = p := by
  cases ivR with
  | none => rfl
  | some iv =>
    unfold aesHmac.Encode
    simp only [hb]
    rw [if_neg (fun h => Option.noConfusion h)]
    split
    · next p1 c1 heq =>
      rw [Prod.mk.injEq, Prod.mk.injEq] at heq
      exact absurd heq.1 (by decide)
    · next p1 c1 heq =>
      rw [Prod.mk.injEq, Prod.mk.injEq] at heq
      have h2 := heq.2.1
      split <;> exact h2.symm

theorem init_nonpage1 (pr : Prims) (c : aesHmac) (p : List Nat) (n : Nat)
    (newKey : Bool) (mkR : Option (List Nat)) (hn : n ≠ 1) :
    aesHmac.init pr c p n newKey mkR = (false, p, c) := by
  unfold aesHmac.init
  rw [if_pos hn]

/-- C10: Encode mutates the caller's page exactly in the bootstrap case:
with the cipher already initialized, or on a CSPRNG failure, or with n not
equal to 1 on an uninitialized codec, the input page comes back unchanged;
on the first page-1 Encode of a new database the freshly generated master
key is written into the key slot at offsets P-R .. P-R+K. -/
theorem C10_encode_page_mutation (pr : Prims) (c : aesHmac) (p : List Nat)
    (n : Nat) (ivR mkR : Option (List Nat)) (ivNew mkv bk : List Nat)
    (hl1 : ∀ h k m, (pr.hmacF h k m).length = HashId.size h)
    (hl2 : ∀ md k iv L, (pr.stream md k iv L).length = L)
    (htl : c.tLen = 16)
    (hkl : c.kLen = 16 ∨ c.kLen = 24 ∨ c.kLen = 32)
    (hbuf : c.buf.length = p.length)
    (hL : 88 ≤ p.length)
    (hiv : ivNew.length = 16)
    (hmk : mkv.length = c.kLen) :
    (c.block = some bk → (aesHmac.Encode pr c p n ivR mkR).2.1 = p) ∧
    (ivR = none → (aesHmac.Encode pr c p n ivR mkR).2.1 = p) ∧
    (c.block = none → n ≠ 1 →
      (aesHmac.Encode pr c p n (some ivNew) mkR).1 =
        Outcome.err Err.codecErr ∧
      (aesHmac.Encode pr c p n (some ivNew) mkR).2.1 = p) ∧
    (c.block = none →
      (aesHmac.Encode pr c p 1 (some ivNew) (some mkv)).2.1 =
        copyInto p (p.length - c.tLen - 16 - c.kLen) mkv) := by
  refine ⟨fun hb => encode_page_initialized pr c p n ivR mkR bk hb,
    ?_, ?_, ?_⟩
  · intro h
    subst h
    rfl
  · intro hb hn
    unfold aesHmac.Encode
    simp only [hb]
    simp only [if_true]
    rw [init_nonpage1 pr _ p n true mkR hn]
    exact ⟨rfl, rfl⟩
  · intro hb
    rw [encode_boot_bridge pr c p ivNew mkv hl1 hb hkl]
    rw [encode_shape pr
      { c with block := some ((bootDk pr c p mkv).take c.kLen),
               hmacKey := some ((bootDk pr c p mkv).drop c.kLen) }
      (bootPage c p mkv) ivNew 1 (some mkv) _ _ _ _ hl1 hl2 rfl
      ((cipher_one_block_congr pr c ivNew _ _).trans
        (cipher_one pr c ivNew hl1 hkl))
      htl (by rw [bootPage_length]; exact hbuf)
      (by rw [bootPage_length]; omega) hiv]
    show bootPage c p mkv = _
    unfold bootPage
    congr 1
    rw [← hmk]
    exact List.take_length mkv

set_option maxRecDepth 4000 in
theorem C10_encode_page_mutation_witness :
    (freshCodec.block = some (List.replicate 16 0) →
      (aesHmac.Encode trivPrims freshCodec smallPage 1 (some cexIV)
        (some (List.replicate 16 2))).2.1 = smallPage) ∧
    ((some cexIV : Option (List Nat)) = none →
      (aesHmac.Encode trivPrims freshCodec smallPage 1 (some cexIV)
        (some (List.replicate 16 2))).2.1 = smallPage) ∧
    (freshCodec.block = none → (1 : Nat) ≠ 1 →
      (aesHmac.Encode trivPrims freshCodec smallPage 1 (some cexIV)
        (some (List.replicate 16 2))).1 = Outcome.err Err.codecErr ∧
      (aesHmac.Encode trivPrims freshCodec smallPage 1 (some cexIV)
        (some (List.replicate 16 2))).2.1 = smallPage) ∧
    (freshCodec.block = none →
      (aesHmac.Encode trivPrims freshCodec smallPage 1 (some cexIV)
        (some (List.replicate 16 2))).2.1 =
        copyInto smallPage
          (smallPage.length - freshCodec.tLen - 16 - freshCodec.kLen)
          (List.replicate 16 2)) ∧
    copyInto smallPage
        (smallPage.length - freshCodec.tLen - 16 - freshCodec.kLen)
        (List.replicate 16 2) ≠ smallPage := by
  have T := C10_encode_page_mutation trivPrims freshCodec smallPage 1
    (some cexIV) (some (List.replicate 16 2)) cexIV (List.replicate 16 2)
    (List.replicate 16 0)
    (by intro h k m; simp [trivPrims])
    (by intro md k iv L; simp [trivPrims])
    rfl (Or.inl rfl) rfl (by decide) (by decide) (by decide)
  exact ⟨T.1, T.2.1, T.2.2.1, T.2.2.2, by decide⟩

